import Mathlib

/-!
Verification of the Recommendation Reconciliation Engine of the
agentic package-installer repository.

Python strings are modelled as `List Char` (`Str`); every Python string
operation the core uses (`strip`, `split`, `split(sep, 1)`, `startswith`,
`replace`, `lower`, substring containment) is given a faithful executable
definition below.  Python `dict`s (which preserve insertion order and update
values in place) are modelled as association lists with an
update-in-place-or-append operation.  External collaborators (the language
model, the GitHub dependency fetches, the PyPI index) are passed in as
explicit inputs, mirroring the boundaries the code draws around its network
calls.
-/

/-- A Python string, modelled as its list of characters. -/
abbrev Str := List Char

/-- Python `str.isspace` characters relevant to `str.strip()`:
space, tab, newline, carriage return, vertical tab, form feed. -/
def isPySpace (c : Char) : Bool :=
  c == ' ' || c == '\t' || c == '\n' || c == '\r' ||
  c == Char.ofNat 11 || c == Char.ofNat 12

/-- Python `s.strip()`: drop whitespace from both ends. -/
def pyStrip (s : Str) : Str :=
  ((s.dropWhile isPySpace).reverse.dropWhile isPySpace).reverse

/-- Python `s.startswith(pre)`. -/
def pyStartsWith (pre s : Str) : Bool :=
  pre.isPrefixOf s

/-- Python `pat in s` (substring containment). -/
def containsSub (pat : Str) : Str → Bool
  | [] => pat.isPrefixOf []
  | c :: rest => pat.isPrefixOf (c :: rest) || containsSub pat rest

/-- Worker for `pySplit`: scans left to right; on a (leftmost) match of
`sep` emits the current chunk and skips over the matched characters
(`skip` counts characters of the match still to consume). -/
def splitGo (sep : Str) : Nat → Str → List Str → Str → List Str
  | _ + 1, cur, acc, [] => acc ++ [cur]
  | skip + 1, cur, acc, _ :: rest => splitGo sep skip cur acc rest
  | 0, cur, acc, [] => acc ++ [cur]
  | 0, cur, acc, c :: rest =>
    if sep.isPrefixOf (c :: rest) then
      splitGo sep (sep.length - 1) [] (acc ++ [cur]) rest
    else
      splitGo sep 0 (cur ++ [c]) acc rest

/-- Python `s.split(sep)` for a non-empty separator (Python raises on an
empty separator; every call site in the source uses a literal non-empty
separator, so the `[]` case is unreachable there). -/
def pySplit (sep s : Str) : List Str :=
  match sep with
  | [] => [s]
  | _ :: _ => splitGo sep 0 [] [] s

/-- Python `s.split(sep, 1)`: split at the first occurrence only. -/
def pySplit1 (sep s : Str) : List Str :=
  match pySplit sep s with
  | [] => [s]
  | [x] => [x]
  | x :: rest => [x, List.intercalate sep rest]

/-- Python `s.replace(old, new)` (all occurrences). -/
def pyReplace (old new s : Str) : Str :=
  List.intercalate new (pySplit old s)

/-- Python `s.lower()` (ASCII case folding, as used by the source). -/
def pyLower (s : Str) : Str :=
  s.map Char.toLower

/-- Update-in-place-or-append on an association list: the model of
`d[k] = v` on a Python `dict`, which keeps the key's first-insertion
position when the key is already present. -/
def assocSet {α : Type} (m : List (Str × α)) (k : Str) (v : α) : List (Str × α) :=
  if m.any (fun e => e.1 == k) then
    m.map (fun e => if e.1 == k then (k, v) else e)
  else
    m ++ [(k, v)]

/-- An entry of `alternative_suggestions` as built by
`PackageAnalyzerAgent.parse_llm_recommendations`. -/
structure AltSuggestion where
  alternative : Str
  reason : Str
deriving DecidableEq

/-- The structured result of `PackageAnalyzerAgent.parse_llm_recommendations`. -/
structure ParsedRecs where
  approved_packages : List Str
  alternative_suggestions : List (Str × AltSuggestion)
  additional_packages : List (Str × Str)
deriving DecidableEq

/-- The line-classifier state: which section header was seen most recently. -/
inductive ParseSection
  | approve
  | alternatives
  | additional
deriving DecidableEq

/-- Mutable state of the parsing loop in `parse_llm_recommendations`. -/
structure PState where
  approved : List Str
  alternatives : List (Str × AltSuggestion)
  additional : List (Str × Str)
  current : Option ParseSection
deriving DecidableEq

def approveHdr : Str := "APPROVE:".data
def suggestHdr : Str := "SUGGEST_ALTERNATIVES:".data
def additionalHdr : Str := "ADDITIONAL:".data
def altMarker : Str := "Better alternative is".data
def becauseTok : Str := "because".data
def orPat : Str := " or ".data
def andPat : Str := " and ".data

/-- One iteration of the `for line in lines` loop of
`parse_llm_recommendations` (package_analyzer.py lines 131-183). -/
def processLine (st : PState) (rawLine : Str) : PState :=
  let line := pyStrip rawLine
  if pyStartsWith approveHdr line then
    let packagesStr := pyStrip (pyReplace approveHdr [] line)
    let approved' :=
      if packagesStr ≠ [] then
        st.approved ++
          (((pySplit [','] packagesStr).map pyStrip).filter (fun p => p ≠ []))
      else st.approved
    { st with approved := approved', current := some .approve }
  else if pyStartsWith suggestHdr line then
    { st with current := some .alternatives }
  else if pyStartsWith additionalHdr line then
    { st with current := some .additional }
  else if pyStartsWith ['-'] line && pyStrip (line.drop 1) ≠ [] then
    let content := pyStrip (line.drop 1)
    match st.current with
    | some .alternatives =>
      if containsSub [':'] content then
        let parts := pySplit1 [':'] content
        let originalPkg := pyStrip (parts.getD 0 [])
        let reason := pyStrip (parts.getD 1 [])
        if containsSub altMarker reason then
          let altPkg :=
            pyStrip ((pySplit becauseTok ((pySplit altMarker reason).getD 1 [])).getD 0 [])
          let reasonText :=
            if containsSub becauseTok reason then
              pyStrip ((pySplit becauseTok reason).getD 1 [])
            else reason
          { st with alternatives :=
              assocSet st.alternatives originalPkg ⟨altPkg, reasonText⟩ }
        else st
      else st
    | some .additional =>
      if containsSub [':'] content then
        let parts := pySplit1 [':'] content
        let pkgName := pyStrip (parts.getD 0 [])
        let reason := pyStrip (parts.getD 1 [])
        if containsSub orPat (pyLower pkgName) || containsSub andPat (pyLower pkgName) then
          st
        else if containsSub [' '] pkgName then
          st
        else
          { st with additional := assocSet st.additional pkgName reason }
      else st
    | _ => st
  else st

/-- The parsing loop of `parse_llm_recommendations` without the final
fallback (package_analyzer.py lines 124-183). -/
def parseCore (llmResponse : Str) : ParsedRecs :=
  let lines := pySplit ['\n'] llmResponse
  let st := lines.foldl processLine ⟨[], [], [], none⟩
  ⟨st.approved, st.alternatives, st.additional⟩

/-- `PackageAnalyzerAgent.parse_llm_recommendations` (package_analyzer.py
lines 109-193): parse, then fall back to approving every user package when
no structure at all was recognized. -/
def parse_llm_recommendations (llmResponse : Str) (userPackages : List Str) : ParsedRecs :=
  let p := parseCore llmResponse
  if p.approved_packages = [] ∧ p.alternative_suggestions = [] ∧ p.additional_packages = [] then
    ⟨userPackages, [], []⟩
  else p

example : parse_llm_recommendations "".data ["numpy".data, "pandas".data] =
    ⟨["numpy".data, "pandas".data], [], []⟩ := by decide

example : parse_llm_recommendations
    "APPROVE: numpy, pandas\nADDITIONAL:\n- seaborn: useful for plotting\n- matplotlib or plotly: visualization".data
    [] =
    ⟨["numpy".data, "pandas".data], [],
     [("seaborn".data, "useful for plotting".data)]⟩ := by decide

/-- A decorated alternative entry of `generate_recommendations` output. -/
structure AltEntry where
  alternative : Str
  reason : Str
  description : Str
deriving DecidableEq

/-- A decorated additional entry of `generate_recommendations` output. -/
structure AddEntry where
  reason : Str
  description : Str
deriving DecidableEq

/-- The three fields of a recommendation record that the Resolution
Engine reads (`approved_packages`, `alternatives`, `additional`). -/
structure Recommendation where
  approved_packages : List Str
  alternatives : List (Str × AltEntry)
  additional : List (Str × AddEntry)
deriving DecidableEq

/-- User decisions keyed by suggested package name. -/
abbrev Choices := List (Str × Bool)

/-- Python `choices.get(pkg, False)`: absent names default to reject. -/
def choiceGet (choices : Choices) (k : Str) : Bool :=
  (choices.lookup k).getD false

/-- The alternatives loop body of `build_final_package_list`
(recommender.py lines 155-163 and main.py lines 159-165, identical code):
accepted decision inserts the suggested name, otherwise the original is
inserted when not already present. -/
def altStep (choices : Choices) (acc : List Str) (p : Str × AltEntry) : List Str :=
  if choiceGet choices p.2.alternative then acc ++ [p.2.alternative]
  else if p.1 ∈ acc then acc
  else acc ++ [p.1]

/-- The additional loop body of `build_final_package_list`
(recommender.py lines 166-168 and main.py lines 167-170, identical code). -/
def addStep (choices : Choices) (acc : List Str) (p : Str × AddEntry) : List Str :=
  if choiceGet choices p.1 then acc ++ [p.1] else acc

/-- Steps 1-3 of both `build_final_package_list` implementations (the code
of these steps is identical in recommender.py and main.py): approved
packages, then the alternatives loop, then the additional loop. -/
def insertionList (r : Recommendation) (choices : Choices) : List Str :=
  r.additional.foldl (addStep choices)
    (r.alternatives.foldl (altStep choices) r.approved_packages)

/-- The duplicate-removal loop with a seen-set, preserving first-insertion
order (recommender.py lines 170-176, main.py lines 176-182). -/
def dedupSeen (seen : List Str) : List Str → List Str
  | [] => []
  | p :: rest => if p ∈ seen then dedupSeen seen rest else p :: dedupSeen (p :: seen) rest

/-- `RecommenderAgent.build_final_package_list` (recommender.py lines
134-178): insertion steps followed by de-duplication; no empty-list
fallback. -/
def build_final_package_list (r : Recommendation) (userChoices : Choices) : List Str :=
  dedupSeen [] (insertionList r userChoices)

/-- `main.build_final_package_list` (main.py lines 151-184): same insertion
steps, then the fallback to `user_packages` when nothing was inserted,
then de-duplication. -/
def main_build_final_package_list (r : Recommendation) (choices : Choices)
    (userPackages : List Str) : List Str :=
  let fp := insertionList r choices
  let fp := if fp = [] ∧ userPackages ≠ [] then userPackages else fp
  dedupSeen [] fp

/-- The PyPI package record assembled by `PyPIMCPServer.get_package_info`
from the index's JSON (pypi_server.py lines 26-57); `none` models both a
missing package and a failed network call, which the source folds into the
same `None` result. -/
structure PackageInfo where
  name : Str
  version : Str
  summary : Str
  description : Str
  author : Str
  home_page : Str
  license : Str
deriving DecidableEq

/-- An oracle for the external package index: the result of
`get_package_info` per package name. -/
abbrev PyPIOracle := Str → Option PackageInfo

def noDescriptionMsg : Str := "No description available".data
def notFoundMsg : Str := "Package not found on PyPI".data

/-- `PyPIMCPServer.get_package_description` (pypi_server.py lines 104-125). -/
def get_package_description (infoOf : PyPIOracle) (packageName : Str) : Str :=
  match infoOf packageName with
  | some pi =>
    if pi.summary ≠ [] then pi.summary
    else if pi.description ≠ [] then
      let desc := pyStrip (pyReplace ['\n'] [' '] pi.description)
      if desc.length > 200 then desc.take 200 ++ "...".data else desc
    else noDescriptionMsg
  | none => notFoundMsg

/-- `PackageAnalyzerAgent.get_package_descriptions` (package_analyzer.py
lines 195-209): a dict mapping each requested name to its description. -/
def get_package_descriptions (infoOf : PyPIOracle) (packages : List Str) :
    List (Str × Str) :=
  packages.foldl (fun m p => assocSet m p (get_package_description infoOf p)) []

/-- The result of `PackageAnalyzerAgent.analyze_with_llm`: the language
model is an external collaborator, so its outcome is an input here
(package_analyzer.py lines 96-107: `success`, `analysis`, and on failure an
`error` message). -/
structure LLMAnalysis where
  success : Bool
  analysis : Str
  error : Option Str
deriving DecidableEq

/-- The dictionary returned by `RecommenderAgent.generate_recommendations`
(recommender.py lines 57-132).  Keys present only on some paths are
`Option`s; the display-only `github_insights` metadata is not modelled. -/
structure GenOutput extends Recommendation where
  success : Bool
  has_suggestions : Bool
  final_packages : Option (List Str)
  error : Option Str
  message : Option Str
deriving DecidableEq

def noSuggestionsMsg : Str :=
  "No better alternatives found. Proceeding with your packages.".data

/-- `all_suggested_packages` (recommender.py lines 93-100): the suggested
names of every alternative followed by every additional key. -/
def allSuggestedPackages (parsed : ParsedRecs) : List Str :=
  parsed.alternative_suggestions.map (fun oa => oa.2.alternative) ++
  parsed.additional_packages.map (fun kr => kr.1)

/-- `alternatives_with_desc` (recommender.py lines 106-113). -/
def decorateAlternatives (infoOf : PyPIOracle) (parsed : ParsedRecs) :
    List (Str × AltEntry) :=
  let descriptions := get_package_descriptions infoOf (allSuggestedPackages parsed)
  parsed.alternative_suggestions.map (fun oa =>
    (oa.1, AltEntry.mk oa.2.alternative oa.2.reason
      ((descriptions.lookup oa.2.alternative).getD noDescriptionMsg)))

/-- `additional_with_desc` (recommender.py lines 115-120). -/
def decorateAdditional (infoOf : PyPIOracle) (parsed : ParsedRecs) :
    List (Str × AddEntry) :=
  let descriptions := get_package_descriptions infoOf (allSuggestedPackages parsed)
  parsed.additional_packages.map (fun kr =>
    (kr.1, AddEntry.mk kr.2 ((descriptions.lookup kr.1).getD noDescriptionMsg)))

/-- `RecommenderAgent.generate_recommendations` (recommender.py lines
23-132), with the language-model outcome and the PyPI oracle supplied as
collaborator inputs. -/
def generate_recommendations (userPackages : List Str) (llm : LLMAnalysis)
    (infoOf : PyPIOracle) : GenOutput :=
  if !llm.success then
    { success := true, has_suggestions := false, final_packages := some userPackages,
      approved_packages := userPackages, alternatives := [], additional := [],
      error := llm.error, message := none }
  else
    let parsed := parse_llm_recommendations llm.analysis userPackages
    let hasAlternatives := parsed.alternative_suggestions.length > 0
    let hasAdditional := parsed.additional_packages.length > 0
    if !(hasAlternatives || hasAdditional) then
      { success := true, has_suggestions := false, final_packages := some userPackages,
        approved_packages := userPackages, alternatives := [], additional := [],
        error := none, message := some noSuggestionsMsg }
    else
      { success := true, has_suggestions := true, final_packages := none,
        approved_packages := parsed.approved_packages,
        alternatives := decorateAlternatives infoOf parsed,
        additional := decorateAdditional infoOf parsed,
        error := none, message := none }

/-- The two dependency lists `analyze_repo_dependencies` mines for one
repository (github_server.py lines 135-176); the manifest fetches behind
them are external collaborator calls, so the parsed lists are inputs here. -/
structure RepoDeps where
  requirements_txt : List Str
  pyproject_toml : List Str
deriving DecidableEq

/-- The comparator of `sorted(..., key=lambda x: x[1], reverse=True)`:
descending by occurrence count. -/
def leCount (a b : Str × Nat) : Bool :=
  b.2 ≤ a.2

/-- Stable insertion of `x` after every already-placed element that sorts
before-or-equal to it. -/
def insertIn (le : Str × Nat → Str × Nat → Bool) (x : Str × Nat) :
    List (Str × Nat) → List (Str × Nat)
  | [] => [x]
  | y :: ys => if le y x then y :: insertIn le x ys else x :: y :: ys

/-- A stable sort (insertion sort).  Python's `sorted` is stable, and a
stable sort's output is uniquely determined by the comparator and the input
order, so this models `sorted(package_count.items(), key=lambda x: x[1],
reverse=True)` exactly. -/
def stableSortBy (le : Str × Nat → Str × Nat → Bool) (l : List (Str × Nat)) :
    List (Str × Nat) :=
  l.foldl (fun acc x => insertIn le x acc) []

/-- `package_count[package] = package_count.get(package, 0) + 1`
(github_server.py line 200). -/
def bumpCount (m : List (Str × Nat)) (p : Str) : List (Str × Nat) :=
  if m.any (fun e => e.1 == p) then
    m.map (fun e => if e.1 == p then (p, e.2 + 1) else e)
  else
    m ++ [(p, 1)]

/-- `GitHubMCPServer.get_popular_packages_from_repos` (github_server.py
lines 178-212): per repository, the union of both manifests' names (a set;
its iteration order is modelled as first-occurrence order), counts
accumulated across repositories, sorted by descending count (stable),
truncated to `top_n`. -/
def get_popular_packages_from_repos (deps : List RepoDeps) (topN : Nat) :
    List (Str × Nat) :=
  let counts := deps.foldl
    (fun m r => (dedupSeen [] (r.requirements_txt ++ r.pyproject_toml)).foldl bumpCount m)
    []
  (stableSortBy leCount counts).take topN

/-- The base-package denylist of `research_similar_projects`
(github_researcher.py line 52). -/
def commonBase : List Str :=
  ["pip".data, "setuptools".data, "wheel".data, "python".data]

/-- The denylist filter of `research_similar_projects`
(github_researcher.py lines 53-56). -/
def researchFilter (pkgs : List (Str × Nat)) : List (Str × Nat) :=
  pkgs.filter (fun p => !(commonBase.contains (pyLower p.1)))

/-- The popularity ranking produced by
`GitHubResearchAgent.research_similar_projects` (github_researcher.py lines
46-56): mining with `top_n=15`, then the denylist filter. -/
def minedRanking (deps : List RepoDeps) : List (Str × Nat) :=
  researchFilter (get_popular_packages_from_repos deps 15)

example :
    minedRanking
      [⟨["requests".data, "flask".data], []⟩,
       ⟨["requests".data, "django".data], []⟩] =
    [("requests".data, 2), ("flask".data, 1), ("django".data, 1)] := by decide

example :
    build_final_package_list
      ⟨["numpy".data], [("pandas".data, ⟨"polars".data, "faster".data, []⟩)], []⟩
      [("polars".data, true)] = ["numpy".data, "polars".data] := by decide

theorem lookup_cons_of_ne {α : Type} {k : Str} {x : Str × α} {l : List (Str × α)}
    (h : k ≠ x.1) : (x :: l).lookup k = l.lookup k := by
  obtain ⟨a, b⟩ := x
  rw [List.lookup_cons]
  simp only [beq_eq_false_iff_ne.mpr h]

theorem lookup_map_setKey {α : Type} (k : Str) (v : α) :
    ∀ m : List (Str × α), m.any (fun e => e.1 == k) = true →
      (m.map (fun e => if e.1 == k then (k, v) else e)).lookup k = some v := by
  intro m
  induction m with
  | nil => simp
  | cons e rest ih =>
    intro h
    by_cases hek : e.1 = k
    · simp [hek]
    · have hek' : (e.1 == k) = false := beq_eq_false_iff_ne.mpr hek
      simp only [List.any_cons, hek', Bool.false_or] at h
      simp only [List.map_cons, hek', Bool.false_eq_true, if_false]
      rw [lookup_cons_of_ne (fun hke => hek hke.symm)]
      exact ih h

theorem lookup_map_ne {α : Type} {k k' : Str} (v : α) (h : k' ≠ k) :
    ∀ m : List (Str × α),
      (m.map (fun e => if e.1 == k then (k, v) else e)).lookup k' = m.lookup k' := by
  intro m
  induction m with
  | nil => simp
  | cons e rest ih =>
    obtain ⟨a, b⟩ := e
    by_cases hek : a = k
    · simp only [List.map_cons, beq_iff_eq.mpr hek, if_true]
      rw [lookup_cons_of_ne h, lookup_cons_of_ne (by simpa [hek] using h), ih]
    · have hek' : ((a, b).1 == k) = false := beq_eq_false_iff_ne.mpr hek
      simp only [List.map_cons, hek', Bool.false_eq_true, if_false]
      by_cases hke : k' = a
      · subst hke
        simp [List.lookup_cons, ih]
      · rw [lookup_cons_of_ne hke, lookup_cons_of_ne hke, ih]

theorem assocSet_lookup_self {α : Type} (m : List (Str × α)) (k : Str) (v : α) :
    (assocSet m k v).lookup k = some v := by
  unfold assocSet
  by_cases h : m.any (fun e => e.1 == k) = true
  · rw [if_pos h]
    exact lookup_map_setKey k v m h
  · rw [if_neg h, List.lookup_append]
    have hnone : m.lookup k = none := by
      rw [List.lookup_eq_none_iff]
      intro p hp
      simp only [List.any_eq_true, not_exists, not_and] at h
      have := h p hp
      simp only [bne_iff_ne, ne_eq]
      intro hkp
      exact this (by simp [hkp])
    simp [hnone]

theorem assocSet_lookup_ne {α : Type} (m : List (Str × α)) {k k' : Str} (v : α)
    (h : k' ≠ k) : (assocSet m k v).lookup k' = m.lookup k' := by
  unfold assocSet
  by_cases hc : m.any (fun e => e.1 == k) = true
  · rw [if_pos hc, lookup_map_ne v h]
  · rw [if_neg hc, List.lookup_append]
    have : ([(k, v)] : List (Str × α)).lookup k' = none := by
      simp [List.lookup_cons, beq_eq_false_iff_ne.mpr h]
    rw [this]
    simp

theorem mem_assocSet {α : Type} {m : List (Str × α)} {k : Str} {v : α}
    {e : Str × α} (he : e ∈ assocSet m k v) : e ∈ m ∨ e = (k, v) := by
  unfold assocSet at he
  by_cases hc : m.any (fun x => x.1 == k) = true
  · rw [if_pos hc, List.mem_map] at he
    obtain ⟨x, hx, hxe⟩ := he
    by_cases hxk : x.1 = k
    · right
      rw [← hxe, if_pos (beq_iff_eq.mpr hxk)]
    · left
      rwa [← hxe, if_neg (by simp [beq_eq_false_iff_ne.mpr hxk])]
  · rw [if_neg hc, List.mem_append] at he
    rcases he with he | he
    · exact Or.inl he
    · exact Or.inr (by simpa using he)

theorem choiceGet_cons_absent {d : Choices} {s : Str} (h : d.lookup s = none)
    (k : Str) : choiceGet ((s, false) :: d) k = choiceGet d k := by
  unfold choiceGet
  by_cases hks : k = s
  · subst hks
    rw [h, List.lookup_cons_self]
    rfl
  · rw [lookup_cons_of_ne hks]

/-- The name each alternatives pair inserts: the suggested package when the
decision accepts it, the original otherwise. -/
def altSel (choices : Choices) (p : Str × AltEntry) : Str :=
  if choiceGet choices p.2.alternative then p.2.alternative else p.1

theorem mem_altStep {choices : Choices} {acc : List Str} {p : Str × AltEntry}
    {x : Str} : x ∈ altStep choices acc p ↔ x ∈ acc ∨ x = altSel choices p := by
  unfold altStep altSel
  by_cases hc : choiceGet choices p.2.alternative
  · simp [hc]
  · simp only [hc, Bool.false_eq_true, if_false]
    by_cases hmem : p.1 ∈ acc
    · simp only [hmem, if_true]
      constructor
      · exact Or.inl
      · rintro (h | rfl)
        · exact h
        · exact hmem
    · simp [hmem]

theorem mem_foldl_altStep {choices : Choices} :
    ∀ (alts : List (Str × AltEntry)) (acc : List Str) (x : Str),
      x ∈ alts.foldl (altStep choices) acc ↔
        x ∈ acc ∨ ∃ p ∈ alts, x = altSel choices p := by
  intro alts
  induction alts with
  | nil =>
    intro acc x
    rw [List.foldl_nil]
    constructor
    · exact Or.inl
    · rintro (h | ⟨p, hp, _⟩)
      · exact h
      · exact absurd hp (List.not_mem_nil p)
  | cons p rest ih =>
    intro acc x
    rw [List.foldl_cons, ih, mem_altStep]
    simp only [List.mem_cons]
    constructor
    · rintro ((h | h) | ⟨q, hq, rfl⟩)
      · exact Or.inl h
      · exact Or.inr ⟨p, Or.inl rfl, h⟩
      · exact Or.inr ⟨q, Or.inr hq, rfl⟩
    · rintro (h | ⟨q, hq | hq, rfl⟩)
      · exact Or.inl (Or.inl h)
      · subst hq
        exact Or.inl (Or.inr rfl)
      · exact Or.inr ⟨q, hq, rfl⟩

theorem mem_addStep {choices : Choices} {acc : List Str} {p : Str × AddEntry}
    {x : Str} :
    x ∈ addStep choices acc p ↔ x ∈ acc ∨ (choiceGet choices p.1 = true ∧ x = p.1) := by
  unfold addStep
  by_cases hc : choiceGet choices p.1
  · simp [hc]
  · simp [hc]

theorem mem_foldl_addStep {choices : Choices} :
    ∀ (adds : List (Str × AddEntry)) (acc : List Str) (x : Str),
      x ∈ adds.foldl (addStep choices) acc ↔
        x ∈ acc ∨ ∃ p ∈ adds, choiceGet choices p.1 = true ∧ x = p.1 := by
  intro adds
  induction adds with
  | nil =>
    intro acc x
    rw [List.foldl_nil]
    constructor
    · exact Or.inl
    · rintro (h | ⟨p, hp, _⟩)
      · exact h
      · exact absurd hp (List.not_mem_nil p)
  | cons p rest ih =>
    intro acc x
    rw [List.foldl_cons, ih, mem_addStep]
    simp only [List.mem_cons]
    constructor
    · rintro ((h | h) | ⟨q, hq, hsel⟩)
      · exact Or.inl h
      · exact Or.inr ⟨p, Or.inl rfl, h⟩
      · exact Or.inr ⟨q, Or.inr hq, hsel⟩
    · rintro (h | ⟨q, hq | hq, hsel⟩)
      · exact Or.inl (Or.inl h)
      · subst hq
        exact Or.inl (Or.inr hsel)
      · exact Or.inr ⟨q, hq, hsel⟩

theorem mem_insertionList {r : Recommendation} {choices : Choices} {x : Str} :
    x ∈ insertionList r choices ↔
      x ∈ r.approved_packages
      ∨ (∃ p ∈ r.alternatives, x = altSel choices p)
      ∨ (∃ p ∈ r.additional, choiceGet choices p.1 = true ∧ x = p.1) := by
  unfold insertionList
  rw [mem_foldl_addStep, mem_foldl_altStep, or_assoc]

theorem mem_dedupSeen : ∀ (l seen : List Str) (x : Str),
    x ∈ dedupSeen seen l ↔ x ∈ l ∧ x ∉ seen := by
  intro l
  induction l with
  | nil => simp [dedupSeen]
  | cons p rest ih =>
    intro seen x
    unfold dedupSeen
    by_cases hp : p ∈ seen
    · rw [if_pos hp, ih]
      simp only [List.mem_cons]
      constructor
      · rintro ⟨h1, h2⟩
        exact ⟨Or.inr h1, h2⟩
      · rintro ⟨h1 | h1, h2⟩
        · subst h1
          exact absurd hp h2
        · exact ⟨h1, h2⟩
    · rw [if_neg hp]
      simp only [List.mem_cons, ih, List.mem_cons]
      constructor
      · rintro (rfl | ⟨h1, h2⟩)
        · exact ⟨Or.inl rfl, hp⟩
        · exact ⟨Or.inr h1, fun hs => h2 (Or.inr hs)⟩
      · rintro ⟨rfl | h1, h2⟩
        · exact Or.inl rfl
        · by_cases hxp : x = p
          · exact Or.inl hxp
          · exact Or.inr ⟨h1, fun hs => by
              rcases hs with hs | hs
              · exact hxp hs
              · exact h2 hs⟩

theorem nodup_dedupSeen : ∀ (l seen : List Str), (dedupSeen seen l).Nodup := by
  intro l
  induction l with
  | nil => intro seen; simp [dedupSeen]
  | cons p rest ih =>
    intro seen
    unfold dedupSeen
    by_cases hp : p ∈ seen
    · rw [if_pos hp]
      exact ih seen
    · rw [if_neg hp]
      refine List.Nodup.cons ?_ (ih (p :: seen))
      intro hmem
      rw [mem_dedupSeen] at hmem
      exact hmem.2 (List.mem_cons_self p seen)

theorem dedupSeen_nil_eq_nil_iff {l : List Str} : dedupSeen [] l = [] ↔ l = [] := by
  cases l with
  | nil => simp [dedupSeen]
  | cons p rest =>
    simp only [dedupSeen, List.not_mem_nil, if_false]
    constructor
    · intro h
      exact absurd h (by simp)
    · intro h
      exact absurd h (by simp)

theorem insertionList_congr {c1 c2 : Choices}
    (h : ∀ k, choiceGet c1 k = choiceGet c2 k) (r : Recommendation) :
    insertionList r c1 = insertionList r c2 := by
  have ha : altStep c1 = altStep c2 := by
    funext acc p
    unfold altStep
    rw [h]
  have hb : addStep c1 = addStep c2 := by
    funext acc p
    unfold addStep
    rw [h]
  unfold insertionList
  rw [ha, hb]

theorem mem_insertIn {x y : Str × Nat} {le : Str × Nat → Str × Nat → Bool} :
    ∀ l : List (Str × Nat), y ∈ insertIn le x l ↔ y = x ∨ y ∈ l := by
  intro l
  induction l with
  | nil => simp [insertIn]
  | cons z zs ih =>
    unfold insertIn
    by_cases hz : le z x
    · rw [if_pos hz]
      simp only [List.mem_cons, ih]
      tauto
    · rw [if_neg hz]
      simp only [List.mem_cons]

theorem pairwise_insertIn {x : Str × Nat} :
    ∀ l : List (Str × Nat), l.Pairwise (fun a b => b.2 ≤ a.2) →
      (insertIn leCount x l).Pairwise (fun a b => b.2 ≤ a.2) := by
  intro l
  induction l with
  | nil =>
    intro _
    simp [insertIn]
  | cons y ys ih =>
    intro h
    unfold insertIn
    by_cases hy : leCount y x
    · rw [if_pos hy]
      refine List.Pairwise.cons ?_ (ih (List.Pairwise.of_cons h))
      intro z hz
      rw [mem_insertIn] at hz
      rcases hz with rfl | hz
      · exact of_decide_eq_true hy
      · exact (List.pairwise_cons.mp h).1 z hz
    · rw [if_neg hy]
      refine List.Pairwise.cons ?_ h
      intro z hz
      have hxy : y.2 ≤ x.2 := by
        have h2 : y.2 < x.2 := by simpa [leCount] using hy
        omega
      rcases List.mem_cons.mp hz with rfl | hz
      · exact hxy
      · exact le_trans ((List.pairwise_cons.mp h).1 z hz) hxy

theorem pairwise_stableSortBy :
    ∀ l : List (Str × Nat), (stableSortBy leCount l).Pairwise (fun a b => b.2 ≤ a.2) := by
  have gen : ∀ (l acc : List (Str × Nat)), acc.Pairwise (fun a b => b.2 ≤ a.2) →
      (l.foldl (fun acc x => insertIn leCount x acc) acc).Pairwise (fun a b => b.2 ≤ a.2) := by
    intro l
    induction l with
    | nil => intro acc h; simpa using h
    | cons x xs ih =>
      intro acc h
      rw [List.foldl_cons]
      exact ih _ (pairwise_insertIn acc h)
  intro l
  exact gen l [] (List.Pairwise.nil)

theorem get_package_descriptions_lookup_aux (infoOf : PyPIOracle) :
    ∀ (pkgs : List Str) (m : List (Str × Str)) (k : Str),
      (k ∈ pkgs ∨ m.lookup k = some (get_package_description infoOf k)) →
      (pkgs.foldl (fun m p => assocSet m p (get_package_description infoOf p)) m).lookup k
        = some (get_package_description infoOf k) := by
  intro pkgs
  induction pkgs with
  | nil =>
    intro m k h
    rcases h with h | h
    · exact absurd h (List.not_mem_nil k)
    · simpa using h
  | cons p rest ih =>
    intro m k h
    rw [List.foldl_cons]
    by_cases hkp : k = p
    · subst hkp
      exact ih _ k (Or.inr (assocSet_lookup_self m k _))
    · rcases h with h | h
      · rcases List.mem_cons.mp h with h | h
        · exact absurd h hkp
        · exact ih _ k (Or.inl h)
      · refine ih _ k (Or.inr ?_)
        rw [assocSet_lookup_ne m _ hkp]
        exact h

theorem get_package_descriptions_lookup (infoOf : PyPIOracle) {pkgs : List Str}
    {k : Str} (h : k ∈ pkgs) :
    (get_package_descriptions infoOf pkgs).lookup k
      = some (get_package_description infoOf k) :=
  get_package_descriptions_lookup_aux infoOf pkgs [] k (Or.inl h)

theorem mem_decorateAlternatives {infoOf : PyPIOracle} {parsed : ParsedRecs}
    {p : Str × AltEntry} (hp : p ∈ decorateAlternatives infoOf parsed) :
    p.2.description = get_package_description infoOf p.2.alternative := by
  simp only [decorateAlternatives, List.mem_map] at hp
  obtain ⟨oa, hoa, rfl⟩ := hp
  have hmem : oa.2.alternative ∈ allSuggestedPackages parsed :=
    List.mem_append.mpr (Or.inl (List.mem_map.mpr ⟨oa, hoa, rfl⟩))
  simp only [get_package_descriptions_lookup infoOf hmem, Option.getD_some]

theorem mem_decorateAdditional {infoOf : PyPIOracle} {parsed : ParsedRecs}
    {q : Str × AddEntry} (hq : q ∈ decorateAdditional infoOf parsed) :
    q.2.description = get_package_description infoOf q.1 := by
  simp only [decorateAdditional, List.mem_map] at hq
  obtain ⟨kr, hkr, rfl⟩ := hq
  have hmem : kr.1 ∈ allSuggestedPackages parsed :=
    List.mem_append.mpr (Or.inr (List.mem_map.mpr ⟨kr, hkr, rfl⟩))
  simp only [get_package_descriptions_lookup infoOf hmem, Option.getD_some]

theorem generate_decoration_cases (up : List Str) (llm : LLMAnalysis)
    (infoOf : PyPIOracle) :
    ((generate_recommendations up llm infoOf).alternatives = []
      ∧ (generate_recommendations up llm infoOf).additional = [])
    ∨ ((generate_recommendations up llm infoOf).alternatives
        = decorateAlternatives infoOf (parse_llm_recommendations llm.analysis up)
      ∧ (generate_recommendations up llm infoOf).additional
        = decorateAdditional infoOf (parse_llm_recommendations llm.analysis up)) := by
  simp only [generate_recommendations]
  split
  · exact Or.inl ⟨rfl, rfl⟩
  · split
    · exact Or.inl ⟨rfl, rfl⟩
    · exact Or.inr ⟨rfl, rfl⟩

/-- The property the additional-bullet filter enforces on a candidate name
(package_analyzer.py lines 173-181): no " or "/" and " in its lowercase
form, and no space character. -/
def validAddKey (k : Str) : Prop :=
  containsSub orPat (pyLower k) = false
  ∧ containsSub andPat (pyLower k) = false
  ∧ containsSub [' '] k = false

theorem processLine_additional_cases (st : PState) (line : Str) :
    (processLine st line).additional = st.additional
    ∨ ∃ k v, validAddKey k ∧ (processLine st line).additional = assocSet st.additional k v := by
  simp only [processLine]
  split
  · exact Or.inl rfl
  · split
    · exact Or.inl rfl
    · split
      · exact Or.inl rfl
      · split
        · split
          · split
            · split
              · exact Or.inl rfl
              · exact Or.inl rfl
            · exact Or.inl rfl
          · split
            · split
              · exact Or.inl rfl
              · split
                · exact Or.inl rfl
                · rename_i hor hspace
                  have hor2 := Bool.or_eq_false_iff.mp (Bool.eq_false_iff.mpr hor)
                  exact Or.inr ⟨_, _, ⟨hor2.1, hor2.2, Bool.eq_false_iff.mpr hspace⟩, rfl⟩
            · exact Or.inl rfl
          · exact Or.inl rfl
        · exact Or.inl rfl

theorem foldl_processLine_additional_inv :
    ∀ (lines : List Str) (st : PState),
      (∀ p ∈ st.additional, validAddKey p.1) →
      ∀ p ∈ (lines.foldl processLine st).additional, validAddKey p.1 := by
  intro lines
  induction lines with
  | nil =>
    intro st h
    rw [List.foldl_nil]
    exact h
  | cons l rest ih =>
    intro st h
    rw [List.foldl_cons]
    refine ih (processLine st l) ?_
    rcases processLine_additional_cases st l with hc | ⟨k, v, hk, hc⟩
    · rw [hc]
      exact h
    · rw [hc]
      intro p hp
      rcases mem_assocSet hp with hp | rfl
      · exact h p hp
      · exact hk

theorem parse_additional_valid (raw : Str) (userPackages : List Str) :
    ∀ p ∈ (parse_llm_recommendations raw userPackages).additional_packages,
      validAddKey p.1 := by
  intro p hp
  simp only [parse_llm_recommendations] at hp
  split at hp
  · exact absurd hp (List.not_mem_nil p)
  · simp only [parseCore] at hp
    exact foldl_processLine_additional_inv _ _ (by intro q hq; exact absurd hq (List.not_mem_nil q)) p hp

def c1Rec : Recommendation :=
  ⟨["numpy".data],
   [("pandas".data, ⟨"polars".data, "faster".data, []⟩)],
   []⟩

/-- Claim C1: with approved `["numpy"]` and the alternative `pandas → polars`,
resolving with `{"polars": True}` yields `["numpy", "polars"]` and resolving
with an empty decisions map yields `["numpy", "pandas"]`; in general, adding
an explicit reject entry for a name absent from the decisions map never
changes the result (absent names default to rejected). -/
theorem claim_c1 :
    build_final_package_list c1Rec [("polars".data, true)]
      = ["numpy".data, "polars".data]
    ∧ build_final_package_list c1Rec [] = ["numpy".data, "pandas".data]
    ∧ ∀ (r : Recommendation) (d : Choices) (s : Str), d.lookup s = none →
        build_final_package_list r ((s, false) :: d) = build_final_package_list r d := by
  refine ⟨by decide, by decide, ?_⟩
  intro r d s h
  unfold build_final_package_list
  rw [insertionList_congr (choiceGet_cons_absent h) r]

/-- Witness for claim C1 at a concrete input. -/
theorem claim_c1_witness :
    build_final_package_list c1Rec [("polars".data, false)]
      = build_final_package_list c1Rec [] :=
  claim_c1.2.2 c1Rec [] "polars".data rfl

def c2Rec : Recommendation := ⟨[], [], []⟩

/-- Counterexample to claim C2 as stated: with an empty recommendation and
`user_packages = ["numpy", "numpy"]`, `main.build_final_package_list` does
not return `user_packages` verbatim — the fallback list is de-duplicated to
`["numpy"]`. -/
theorem claim_c2_counterexample :
    main_build_final_package_list c2Rec [] ["numpy".data, "numpy".data]
      ≠ ["numpy".data, "numpy".data]
    ∧ main_build_final_package_list c2Rec [] ["numpy".data, "numpy".data]
      = ["numpy".data] := by
  constructor
  · decide
  · decide

/-- Claim C2 (amended): whenever the insertion steps produce an empty list,
`main.build_final_package_list` returns `user_packages` with duplicates
removed preserving first occurrence (hence verbatim whenever `user_packages`
has no duplicates); and the result is never empty when `user_packages` is
non-empty. -/
theorem claim_c2 :
    ∀ (r : Recommendation) (choices : Choices) (userPackages : List Str),
      (insertionList r choices = [] →
        main_build_final_package_list r choices userPackages
          = dedupSeen [] userPackages)
      ∧ (userPackages ≠ [] →
        main_build_final_package_list r choices userPackages ≠ []) := by
  intro r choices userPackages
  constructor
  · intro h
    simp only [main_build_final_package_list, h]
    by_cases hup : userPackages = []
    · subst hup
      simp
    · simp [hup]
  · intro hup
    simp only [main_build_final_package_list]
    by_cases hins : insertionList r choices = []
    · simp only [hins, ne_eq, hup, not_false_eq_true, and_self, if_true]
      intro hcon
      exact hup (dedupSeen_nil_eq_nil_iff.mp hcon)
    · simp only [hins, false_and, if_false]
      intro hcon
      exact hins (dedupSeen_nil_eq_nil_iff.mp hcon)

/-- Witness for claim C2 (amended) at a concrete input. -/
theorem claim_c2_witness :
    main_build_final_package_list c2Rec [] ["numpy".data]
      = dedupSeen [] ["numpy".data]
    ∧ main_build_final_package_list c2Rec [] ["numpy".data] ≠ [] :=
  ⟨(claim_c2 c2Rec [] ["numpy".data]).1 (by decide),
   (claim_c2 c2Rec [] ["numpy".data]).2 (by decide)⟩

def c3Rec : Recommendation :=
  ⟨["b".data], [("a".data, ⟨"b".data, [], []⟩)], []⟩

/-- Counterexample to claim C3 as stated: with approved `["b"]`, the
alternative pair `(a, suggested b)` and an empty decisions map, the result
is `["b", "a"]` — both the original and the suggested name appear, and the
original "a" did not appear via the approved list, so the claimed
"exactly one unless original is approved" fails. -/
theorem claim_c3_counterexample :
    ¬ (∀ p ∈ c3Rec.alternatives,
        (p.1 ∈ build_final_package_list c3Rec []
          ↔ p.2.alternative ∉ build_final_package_list c3Rec [])
        ∨ p.1 ∈ c3Rec.approved_packages) := by
  decide

/-- Claim C3 (amended): the resolved list never contains duplicates; a name
is in the result exactly when it is approved, is the decision-selected
element of some alternatives pair, or is an additional key with an
accepting decision; consequently the decision-selected element of every
alternatives pair always appears, and exactly one of an alternatives
pair's two names appears unless the other one is also inserted by another
step (via approved, another pair, or an accepted additional key). -/
theorem claim_c3 :
    ∀ (r : Recommendation) (choices : Choices),
      (build_final_package_list r choices).Nodup
      ∧ (∀ x, x ∈ build_final_package_list r choices ↔
          x ∈ r.approved_packages
          ∨ (∃ p ∈ r.alternatives, x = altSel choices p)
          ∨ (∃ p ∈ r.additional, choiceGet choices p.1 = true ∧ x = p.1))
      ∧ (∀ p ∈ r.alternatives, altSel choices p ∈ build_final_package_list r choices) := by
  intro r choices
  have hmem : ∀ x, x ∈ build_final_package_list r choices ↔
      x ∈ r.approved_packages
      ∨ (∃ p ∈ r.alternatives, x = altSel choices p)
      ∨ (∃ p ∈ r.additional, choiceGet choices p.1 = true ∧ x = p.1) := by
    intro x
    unfold build_final_package_list
    rw [mem_dedupSeen]
    simp only [List.not_mem_nil, not_false_eq_true, and_true]
    exact mem_insertionList
  refine ⟨nodup_dedupSeen _ _, hmem, ?_⟩
  intro p hp
  exact (hmem (altSel choices p)).mpr (Or.inr (Or.inl ⟨p, hp, rfl⟩))

/-- Witness for claim C3 (amended) at a concrete input. -/
theorem claim_c3_witness :
    altSel [] ("a".data, AltEntry.mk "b".data [] [])
      ∈ build_final_package_list c3Rec [] :=
  (claim_c3 c3Rec []).2.2 ("a".data, AltEntry.mk "b".data [] []) (by decide)

/-- Claim C4: whenever the parsing loop recognizes no approved, alternative,
or additional content at all, `parse_llm_recommendations` returns the user
packages as approved with empty alternatives and additional; in particular
on the empty string with `["numpy", "pandas"]`. -/
theorem claim_c4 :
    (∀ (raw : Str) (userPackages : List Str),
      parseCore raw = ⟨[], [], []⟩ →
        parse_llm_recommendations raw userPackages = ⟨userPackages, [], []⟩)
    ∧ parse_llm_recommendations "".data ["numpy".data, "pandas".data]
        = ⟨["numpy".data, "pandas".data], [], []⟩ := by
  constructor
  · intro raw userPackages h
    simp only [parse_llm_recommendations, h]
    simp
  · decide

/-- Witness for claim C4 at a concrete input. -/
theorem claim_c4_witness :
    parse_llm_recommendations "no structure here".data ["scipy".data]
      = ⟨["scipy".data], [], []⟩ :=
  claim_c4.1 "no structure here".data ["scipy".data] (by decide)

def c5Raw : Str := "ADDITIONAL:\n- or: some reason".data

/-- Counterexample to claim C5 as stated: the additional bullet
`- or: some reason` has candidate name exactly "or", which the claim says
is dropped; the code's filter only rejects names containing " or "/" and "
with surrounding spaces or a space character, so the key "or" is kept. -/
theorem claim_c5_counterexample :
    (parse_llm_recommendations c5Raw []).additional_packages
      = [("or".data, "some reason".data)] := by
  decide

def c5SpecRaw : Str :=
  "APPROVE: numpy, pandas\nADDITIONAL:\n- seaborn: useful for plotting\n- matplotlib or plotly: visualization".data

/-- Claim C5 (amended): every key of the additional map contains no space
character and does not contain " or " or " and " (lower-cased, with
surrounding spaces) as a substring — so a key can only contain "or"/"and"
as a separate token by being exactly "or" or "and", which the filter does
not reject; bullets like "matplotlib or plotly" are dropped, as in the
spec's example. -/
theorem claim_c5 :
    (∀ (raw : Str) (userPackages : List Str),
      ∀ p ∈ (parse_llm_recommendations raw userPackages).additional_packages,
        containsSub orPat (pyLower p.1) = false
        ∧ containsSub andPat (pyLower p.1) = false
        ∧ containsSub [' '] p.1 = false)
    ∧ parse_llm_recommendations c5SpecRaw []
        = ⟨["numpy".data, "pandas".data], [],
           [("seaborn".data, "useful for plotting".data)]⟩ := by
  constructor
  · intro raw userPackages p hp
    exact parse_additional_valid raw userPackages p hp
  · decide

/-- Witness for claim C5 (amended) at a concrete input. -/
theorem claim_c5_witness :
    containsSub orPat (pyLower "seaborn".data) = false
    ∧ containsSub andPat (pyLower "seaborn".data) = false
    ∧ containsSub [' '] "seaborn".data = false :=
  claim_c5.1 c5SpecRaw [] ("seaborn".data, "useful for plotting".data) (by decide)

/-- Claim C6: in every filtered popularity ranking, occurrence counts are
non-increasing across the sequence, and no entry's package name equals any
denylisted base-package name case-insensitively. -/
theorem claim_c6 :
    ∀ (deps : List RepoDeps),
      (minedRanking deps).Pairwise (fun a b => b.2 ≤ a.2)
      ∧ ∀ p ∈ minedRanking deps, pyLower p.1 ∉ commonBase := by
  intro deps
  constructor
  · simp only [minedRanking, researchFilter, get_popular_packages_from_repos]
    exact List.Pairwise.sublist
      ((List.filter_sublist _).trans (List.take_sublist _ _))
      (pairwise_stableSortBy _)
  · intro p hp
    simp only [minedRanking, researchFilter, List.mem_filter] at hp
    have h2 := hp.2
    simp only [Bool.not_eq_true'] at h2
    intro hmem
    rw [List.contains, List.elem_eq_mem] at h2
    exact absurd hmem (of_decide_eq_false h2)

def c6Deps : List RepoDeps :=
  [⟨["requests".data, "flask".data], []⟩,
   ⟨["requests".data, "django".data], []⟩]

/-- Witness for claim C6 at a concrete input. -/
theorem claim_c6_witness : pyLower "requests".data ∉ commonBase :=
  (claim_c6 c6Deps).2 ("requests".data, 2) (by decide)

/-- Claim C7: when the language-model call fails, the aggregator still
succeeds, returning the user's packages as approved with empty alternatives
and additional maps, the user packages as the final list, and the
collaborator's failure indicator attached. -/
theorem claim_c7 :
    ∀ (userPackages : List Str) (llm : LLMAnalysis) (infoOf : PyPIOracle),
      llm.success = false →
        (generate_recommendations userPackages llm infoOf).success = true
        ∧ (generate_recommendations userPackages llm infoOf).approved_packages
            = userPackages
        ∧ (generate_recommendations userPackages llm infoOf).alternatives = []
        ∧ (generate_recommendations userPackages llm infoOf).additional = []
        ∧ (generate_recommendations userPackages llm infoOf).final_packages
            = some userPackages
        ∧ (generate_recommendations userPackages llm infoOf).error = llm.error := by
  intro userPackages llm infoOf h
  simp [generate_recommendations, h]

def c7LLM : LLMAnalysis := ⟨false, [], some "LLM analysis failed: boom".data⟩

/-- Witness for claim C7 at a concrete input. -/
theorem claim_c7_witness :
    (generate_recommendations ["numpy".data] c7LLM (fun _ => none)).approved_packages
      = ["numpy".data]
    ∧ (generate_recommendations ["numpy".data] c7LLM (fun _ => none)).error
      = c7LLM.error :=
  ⟨(claim_c7 ["numpy".data] c7LLM (fun _ => none) rfl).2.1,
   (claim_c7 ["numpy".data] c7LLM (fun _ => none) rfl).2.2.2.2.2⟩

def c8Raw : Str :=
  "SUGGEST_ALTERNATIVES:\n- pandas: Better alternative is polars because faster\nADDITIONAL:\n- polars: speed".data

def c8LLM : LLMAnalysis := ⟨true, c8Raw, none⟩

def c8Out : GenOutput :=
  generate_recommendations ["pandas".data] c8LLM (fun _ => none)

/-- Counterexample to claim C8 as stated: a response listing polars both as
the alternative for pandas and as an additional package yields a
recommendation where "polars" is simultaneously a suggested alternative
value and an additional key — no reconciliation happens. -/
theorem claim_c8_counterexample :
    ¬ (∀ p ∈ c8Out.alternatives, ∀ q ∈ c8Out.additional,
        p.2.alternative ≠ q.1) := by
  decide

/-- Claim C8 (amended): the parse-and-decorate cycle applies no
cross-section reconciliation — the same package name can appear both as an
alternative's suggested value and as a key of the additional map of one
returned recommendation. -/
theorem claim_c8 :
    ∃ (userPackages : List Str) (llm : LLMAnalysis) (infoOf : PyPIOracle),
      ∃ p ∈ (generate_recommendations userPackages llm infoOf).alternatives,
        ∃ q ∈ (generate_recommendations userPackages llm infoOf).additional,
          p.2.alternative = q.1 :=
  ⟨["pandas".data], c8LLM, fun _ => none, by decide⟩

def c9Raw : Str :=
  "SUGGEST_ALTERNATIVES:\n- requests: Better alternative is httpx because async support".data

def c9LLM : LLMAnalysis := ⟨true, c9Raw, none⟩

def c9Out : GenOutput :=
  generate_recommendations ["requests".data] c9LLM (fun _ => none)

/-- Counterexample to claim C9 as stated: when the package index has no
entry for the suggested name (a missing description), the attached
description is "Package not found on PyPI", not the claimed placeholder
"No description available". -/
theorem claim_c9_counterexample :
    ∃ p ∈ c9Out.alternatives,
      p.2.description = notFoundMsg ∧ p.2.description ≠ noDescriptionMsg := by
  decide

/-- Claim C9 (amended): every decorated alternative and additional entry
carries exactly the description computed from the package index for its
suggested name; that description is the placeholder "No description
available" only when the package exists in the index with empty summary and
empty description, while a name missing from the index entirely yields
"Package not found on PyPI". -/
theorem claim_c9 :
    ∀ (userPackages : List Str) (llm : LLMAnalysis) (infoOf : PyPIOracle),
      (∀ p ∈ (generate_recommendations userPackages llm infoOf).alternatives,
        p.2.description = get_package_description infoOf p.2.alternative)
      ∧ (∀ q ∈ (generate_recommendations userPackages llm infoOf).additional,
        q.2.description = get_package_description infoOf q.1)
      ∧ (∀ (name : Str) (pi : PackageInfo), infoOf name = some pi →
          pi.summary = [] → pi.description = [] →
          get_package_description infoOf name = noDescriptionMsg)
      ∧ (∀ name : Str, infoOf name = none →
          get_package_description infoOf name = notFoundMsg) := by
  intro userPackages llm infoOf
  refine ⟨?_, ?_, ?_, ?_⟩
  · intro p hp
    rcases generate_decoration_cases userPackages llm infoOf with ⟨ha, _⟩ | ⟨ha, _⟩
    · rw [ha] at hp
      exact absurd hp (List.not_mem_nil p)
    · rw [ha] at hp
      exact mem_decorateAlternatives hp
  · intro q hq
    rcases generate_decoration_cases userPackages llm infoOf with ⟨_, ha⟩ | ⟨_, ha⟩
    · rw [ha] at hq
      exact absurd hq (List.not_mem_nil q)
    · rw [ha] at hq
      exact mem_decorateAdditional hq
  · intro name pi hsome hsum hdesc
    unfold get_package_description
    rw [hsome]
    simp [hsum, hdesc]
  · intro name hnone
    unfold get_package_description
    rw [hnone]

/-- Witness for claim C9 (amended) at a concrete input. -/
theorem claim_c9_witness :
    ("requests".data,
        AltEntry.mk "httpx".data "async support".data notFoundMsg).2.description
      = get_package_description (fun _ => none) "httpx".data
    ∧ get_package_description (fun _ => none) "numpy".data = notFoundMsg :=
  ⟨(claim_c9 ["requests".data] c9LLM (fun _ => none)).1
      ("requests".data, AltEntry.mk "httpx".data "async support".data notFoundMsg)
      (by decide),
   (claim_c9 ["requests".data] c9LLM (fun _ => none)).2.2.2 "numpy".data rfl⟩

def c10Rec : Recommendation := ⟨[], [], []⟩

/-- Counterexample to claim C10 as stated: on an empty recommendation with
non-empty user packages, the agent's resolver returns `[]` while main's
returns the user packages — the two implementations differ. -/
theorem claim_c10_counterexample :
    build_final_package_list c10Rec [] = []
    ∧ main_build_final_package_list c10Rec [] ["numpy".data] = ["numpy".data]
    ∧ build_final_package_list c10Rec []
        ≠ main_build_final_package_list c10Rec [] ["numpy".data] := by
  refine ⟨by decide, by decide, by decide⟩

/-- Claim C10 (amended): the two implementations agree whenever the agent
resolver's result is non-empty or the user package list is empty; they
differ exactly on main's empty-result fallback, which the agent
implementation lacks. -/
theorem claim_c10 :
    ∀ (r : Recommendation) (choices : Choices) (userPackages : List Str),
      build_final_package_list r choices ≠ [] ∨ userPackages = [] →
        main_build_final_package_list r choices userPackages
          = build_final_package_list r choices := by
  intro r choices userPackages h
  simp only [main_build_final_package_list, build_final_package_list] at h ⊢
  rw [if_neg]
  rintro ⟨h1, h2⟩
  rcases h with h | h
  · refine h ?_
    rw [h1]
    rfl
  · exact h2 h

def c10RecW : Recommendation := ⟨["numpy".data], [], []⟩

/-- Witness for claim C10 (amended) at a concrete input. -/
theorem claim_c10_witness :
    main_build_final_package_list c10RecW [] ["x".data]
      = build_final_package_list c10RecW [] :=
  claim_c10 c10RecW [] ["x".data] (Or.inl (by decide))
